import Mathlib

/-!
Shallow embedding of the attendance/advance ledger and payroll aggregation
engine of `src/app.py` (a Flask + SQLAlchemy application).

Database tables are modelled as lists of rows kept in insertion order;
SQLAlchemy query idioms are modelled by the corresponding list operations
(`filter` for `WHERE`/bulk `DELETE`, `find?` for `.first()`/`.get()`, list
sum for `func.sum` with `coalesce 0`).  SQL/Python floats are modelled as
rationals (all ledger values that matter are small decimals, exactly
representable), and Python `round(x, 2)` is modelled by `round2`.
Presentation-only behaviour (flash messages, redirects, HTML rendering) is
not modelled; the decimal formatting used inside audit/error strings is
modelled by `toString` on rationals, which differs from Python float
formatting but is never load-bearing.
-/

namespace App

/-- A calendar date (Python `datetime.date`): year, month, day. -/
structure Date where
  year : Nat
  month : Nat
  day : Nat
  deriving DecidableEq, Repr

/-- Python `date` comparison `a < b` (lexicographic on year, month, day). -/
def dateLtB (a b : Date) : Bool :=
  decide (a.year < b.year ∨ (a.year = b.year ∧
    (a.month < b.month ∨ (a.month = b.month ∧ a.day < b.day))))

/-- Row of the `company` table. -/
structure Company where
  id : Nat
  name : String
  deriving DecidableEq, Repr

/-- Row of the `user` table (a principal). -/
structure User where
  id : Nat
  company_id : Nat
  username : String
  is_owner : Bool
  is_admin : Bool
  deriving DecidableEq, Repr

/-- Row of the `team` table. -/
structure Team where
  id : Nat
  company_id : Nat
  name : String
  manager_id : Nat
  deriving DecidableEq, Repr

/-- Row of the `employee` table. -/
structure Employee where
  id : Nat
  company_id : Nat
  name : String
  daily_salary : ℚ
  created_by : Nat
  deriving DecidableEq, Repr

/-- Row of the `attendance` table.  The database declares the natural key
`(employee_id, team_id, work_date)` unique and `day_count IN (0, 0.5, 1)`. -/
structure Attendance where
  company_id : Nat
  employee_id : Nat
  team_id : Nat
  work_date : Date
  day_count : ℚ
  created_by : Nat
  deriving DecidableEq, Repr

/-- Row of the `attendance_note` table. -/
structure AttendanceNote where
  company_id : Nat
  team_id : Nat
  note_date : Date
  note : String
  created_by : Nat
  deriving DecidableEq, Repr

/-- Row of the `advance` table. -/
structure Advance where
  company_id : Nat
  employee_id : Nat
  amount : ℚ
  advance_date : Date
  note : String
  created_by : Nat
  deriving DecidableEq, Repr

/-- Row of the `audit_log` table. -/
structure AuditLog where
  company_id : Nat
  operator_id : Nat
  action : String
  detail : String
  deriving DecidableEq, Repr

/-- The whole database.  `team_members` is the association table: a list of
`(team_id, employee_id)` pairs. -/
structure State where
  companies : List Company
  users : List User
  teams : List Team
  employees : List Employee
  team_members : List (Nat × Nat)
  attendance : List Attendance
  notes : List AttendanceNote
  advances : List Advance
  audit : List AuditLog
  deriving DecidableEq, Repr

/-- The empty database. -/
def State.empty : State := ⟨[], [], [], [], [], [], [], [], []⟩

/-- Python `round(q, 2)`: round to two decimal places.  (`round` on ℚ is
round-half-up; Python rounds floats half-to-even, which can differ only at
exact half-cent values — never the case for the values the claims test.) -/
def round2 (q : ℚ) : ℚ := (round (q * 100) : ℚ) / 100

/-- Model of `log_action`: append one row to the audit log. -/
def log_action (st : State) (cid uid : Nat) (action detail : String) : State :=
  { st with audit := st.audit ++ [⟨cid, uid, action, detail⟩] }

/-! ### Attendance ledger (`team_attendance` POST handler) -/

/-- The natural key predicate used by
`Attendance.query.filter_by(employee_id, team_id, work_date)`. -/
def attKey (e t : Nat) (d : Date) (r : Attendance) : Bool :=
  decide (r.employee_id = e ∧ r.team_id = t ∧ r.work_date = d)

/-- Rows of one employee on one date (any team). -/
def onDate (e : Nat) (d : Date) (r : Attendance) : Bool :=
  decide (r.employee_id = e ∧ r.work_date = d)

/-- Rows of one employee on one date in teams other than `t`
(the filter of the `other_sum` query). -/
def otherTeams (e : Nat) (d : Date) (t : Nat) (r : Attendance) : Bool :=
  decide (r.employee_id = e ∧ r.work_date = d ∧ r.team_id ≠ t)

/-- Sum query `SELECT coalesce(sum(day_count), 0) WHERE p`. -/
def attSum (A : List Attendance) (p : Attendance → Bool) : ℚ :=
  ((A.filter p).map (fun r => r.day_count)).sum

/-- Total `day_count` recorded for employee `e` on date `d`, across teams. -/
def dateSum (A : List Attendance) (e : Nat) (d : Date) : ℚ := attSum A (onDate e d)

/-- The `other_sum` query of the `team_attendance` handler: the employee's day total on
that date over the other teams. -/
def other_sum (A : List Attendance) (e : Nat) (d : Date) (t : Nat) : ℚ :=
  attSum A (otherTeams e d t)

/-- Overwrite `day_count` and `created_by` of the first row at the natural
key (the ORM mutation of the fetched `record`). -/
def updateAtt (e t : Nat) (d : Date) (dc : ℚ) (uid : Nat) :
    List Attendance → List Attendance
  | [] => []
  | r :: rest =>
    if attKey e t d r then { r with day_count := dc, created_by := uid } :: rest
    else r :: updateAtt e t d dc uid rest

/-- One iteration of the `team_attendance` POST loop for employee `e` with
submitted value `dc`: fetch the record at the natural key, compute
`other_sum`, reject when `other_sum + day_count > 1`, otherwise update in
place or insert a new row.  Returns the new table and whether the entry was
accepted. -/
def recordOne (cid uid t : Nat) (d : Date) (A : List Attendance) (e : Nat) (dc : ℚ) :
    List Attendance × Bool :=
  let os := other_sum A e d t
  if 1 < os + dc then (A, false)
  else if A.any (attKey e t d) then (updateAtt e t d dc uid A, true)
  else (A ++ [⟨cid, e, t, d, dc, uid⟩], true)

/-- Accumulator of the batch loop: attendance table, `updated_count`,
`error_messages`. -/
structure BatchState where
  att : List Attendance
  updated : Nat
  errors : List String
  deriving Repr

/-- The per-employee rejection message (numeric formatting approximated). -/
def overLimitMsg (name : String) (os : ℚ) : String :=
  name ++ " 超过1天（其它团队已记录 " ++ toString os ++ " 天）"

/-- Process one submitted entry inside the batch loop. -/
def entryStep (cid uid t : Nat) (d : Date) (b : BatchState) (emp : Employee) (dc : ℚ) :
    BatchState :=
  let res := recordOne cid uid t d b.att emp.id dc
  if res.2 then { b with att := res.1, updated := b.updated + 1 }
  else { b with errors := b.errors ++ [overLimitMsg emp.name (other_sum b.att emp.id d t)] }

/-- The submitted form: the employees with an `attendance_<id>` value. -/
def formGet (form : List (Nat × ℚ)) (eid : Nat) : Option ℚ :=
  (form.find? (fun p => decide (p.1 = eid))).map (fun p => p.2)

/-- Model of `team.members`: employees linked to the team through the association
table (row order of the `employee` table). -/
def teamMembersOf (st : State) (team : Team) : List Employee :=
  st.employees.filter (fun e => st.team_members.any (fun p => decide (p.1 = team.id ∧ p.2 = e.id)))

/-- The batch loop over `team.members`: members without a submitted value
are skipped. -/
def runBatch (cid uid t : Nat) (d : Date) (form : List (Nat × ℚ))
    (members : List Employee) (A : List Attendance) : BatchState :=
  members.foldl
    (fun b emp =>
      match formGet form emp.id with
      | none => b
      | some dc => entryStep cid uid t d b emp dc)
    ⟨A, 0, []⟩

/-- Overwrite the first matching `AttendanceNote` row. -/
def updateNote (cid t : Nat) (d : Date) (txt : String) (uid : Nat) :
    List AttendanceNote → List AttendanceNote
  | [] => []
  | n :: rest =>
    if decide (n.company_id = cid ∧ n.team_id = t ∧ n.note_date = d) then
      { n with note := txt, created_by := uid } :: rest
    else n :: updateNote cid t d txt uid rest

/-- Upsert of the team's note for the day (always performed by the POST
handler, regardless of how many entries succeeded). -/
def upsertNote (st : State) (cid t : Nat) (d : Date) (txt : String) (uid : Nat) : State :=
  if st.notes.any (fun n => decide (n.company_id = cid ∧ n.team_id = t ∧ n.note_date = d)) then
    { st with notes := updateNote cid t d txt uid st.notes }
  else
    { st with notes := st.notes ++ [⟨cid, t, d, txt, uid⟩] }

/-- Zero-padded two-digit rendering. -/
def pad2 (n : Nat) : String := if n < 10 then "0" ++ toString n else toString n

/-- Zero-padded four-digit rendering. -/
def pad4 (n : Nat) : String :=
  if n < 10 then "000" ++ toString n
  else if n < 100 then "00" ++ toString n
  else if n < 1000 then "0" ++ toString n
  else toString n

/-- Python `str(date)`: ISO format `YYYY-MM-DD`. -/
def dateIso (d : Date) : String := pad4 d.year ++ "-" ++ pad2 d.month ++ "-" ++ pad2 d.day

/-- Detail string of the single `batch_attendance` audit row. -/
def batchDetail (teamName : String) (d : Date) (n : Nat) : String :=
  "团队 " ++ teamName ++ " 批量考勤：" ++ dateIso d ++ "，更新 " ++ toString n ++ " 人"

/-- The `team_attendance` POST handler.  `today` models `date.today()`; a
future `work_date` is rejected before any write.  After the loop the note is
upserted, and one `batch_attendance` audit row is appended when at least one
entry was accepted. -/
def team_attendance_post (st : State) (actor : User) (team : Team)
    (work_date today : Date) (form : List (Nat × ℚ)) (note_text : String) : State :=
  if dateLtB today work_date then st
  else
    let b := runBatch actor.company_id actor.id team.id work_date form
      (teamMembersOf st team) st.attendance
    let st1 := { st with attendance := b.att }
    let st2 := upsertNote st1 actor.company_id team.id work_date note_text actor.id
    if b.updated ≠ 0 then
      log_action st2 actor.company_id actor.id ("batch_attendance")
        (batchDetail team.name work_date b.updated)
    else st2

/-- One attendance-recording request, as submitted by a caller. -/
structure BatchCall where
  actor : User
  team : Team
  work_date : Date
  today : Date
  form : List (Nat × ℚ)
  note_text : String
  deriving Repr

/-- A sequence of attendance-recording requests. -/
def applyBatches (st : State) (ops : List BatchCall) : State :=
  ops.foldl
    (fun s op => team_attendance_post s op.actor op.team op.work_date op.today op.form op.note_text)
    st

/-- The database unique constraint `uq_attendance_employee_team_date`:
no two rows share the natural key. -/
def attKeyUnique (A : List Attendance) : Prop :=
  A.Pairwise (fun r s => ¬ (r.employee_id = s.employee_id ∧ r.team_id = s.team_id ∧ r.work_date = s.work_date))

/-- The cross-team ceiling invariant: no employee exceeds one day in total
on any date. -/
def ceilingInv (A : List Attendance) : Prop := ∀ e d, dateSum A e d ≤ 1

/-! ### Payroll aggregation (`calculate_month_stat`, `payroll`) -/

/-- Month filter of the attendance sum query in `calculate_month_stat`. -/
def attMonthSum (st : State) (eid year month : Nat) : ℚ :=
  ((st.attendance.filter (fun r =>
      decide (r.employee_id = eid ∧ r.work_date.year = year ∧ r.work_date.month = month))).map
    (fun r => r.day_count)).sum

/-- Month filter of the advance sum query in `calculate_month_stat`. -/
def advMonthSum (st : State) (eid year month : Nat) : ℚ :=
  ((st.advances.filter (fun a =>
      decide (a.employee_id = eid ∧ a.advance_date.year = year ∧ a.advance_date.month = month))).map
    (fun a => a.amount)).sum

/-- Result tuple of `calculate_month_stat`. -/
structure MonthStat where
  days : ℚ
  advances : ℚ
  gross : ℚ
  remaining : ℚ
  deriving DecidableEq, Repr

/-- Body of `calculate_month_stat` once the employee row is at hand
(`Employee.query.get` is a primary-key lookup, so it returns this row). -/
def monthStatOf (st : State) (emp : Employee) (year month : Nat) : MonthStat :=
  let att_q := attMonthSum st emp.id year month
  let advances := advMonthSum st emp.id year month
  let gross := round2 (att_q * emp.daily_salary)
  let remaining := round2 (gross - advances)
  ⟨round2 att_q, round2 advances, gross, remaining⟩

/-- Model of `calculate_month_stat(employee_id, year, month)`; `none` when the
employee row does not exist (the Python code would fail there). -/
def calculate_month_stat (st : State) (eid year month : Nat) : Option MonthStat :=
  (st.employees.find? (fun e => decide (e.id = eid))).map
    (fun emp => monthStatOf st emp year month)

/-- Python tuple ordering on `(year, month)` pairs. -/
def pairLeB (a b : Nat × Nat) : Bool :=
  decide (a.1 < b.1 ∨ (a.1 = b.1 ∧ a.2 ≤ b.2))

/-- Insertion step of sorting the month keys. -/
def insertPair (x : Nat × Nat) : List (Nat × Nat) → List (Nat × Nat)
  | [] => [x]
  | y :: ys => if pairLeB x y then x :: y :: ys else y :: insertPair x ys

/-- Python `sorted` on `(year, month)` pairs (insertion sort). -/
def sortPairs : List (Nat × Nat) → List (Nat × Nat)
  | [] => []
  | x :: xs => insertPair x (sortPairs xs)

/-- All `(year, month)` occurrences in the tenant's attendance and advance
ledgers (collected into the `month_keys` set). -/
def monthKeySrc (st : State) (cid : Nat) : List (Nat × Nat) :=
  (st.attendance.filter (fun r => decide (r.company_id = cid))).map
    (fun r => (r.work_date.year, r.work_date.month))
  ++ (st.advances.filter (fun a => decide (a.company_id = cid))).map
    (fun a => (a.advance_date.year, a.advance_date.month))

/-- The `ordered_months` list of the `payroll` view: for scope `all`, the sorted
distinct month keys with activity (falling back to the requested pair when
none exist); otherwise the single requested pair. -/
def ordered_months (st : State) (cid : Nat) (scope : String) (year month : Nat) :
    List (Nat × Nat) :=
  if scope = "all" then
    let keys := (monthKeySrc st cid).dedup
    if keys = [] then [(year, month)] else sortPairs keys
  else [(year, month)]

/-- One employee's row of the payroll report. -/
structure PayrollRow where
  name : String
  daily_salary : ℚ
  total_days : ℚ
  total_advances : ℚ
  total_gross : ℚ
  total_remain : ℚ
  month_days : List ((Nat × Nat) × ℚ)
  deriving DecidableEq, Repr

/-- One month of accumulation in the payroll loop. -/
def payrollAccum (st : State) (emp : Employee) (row : PayrollRow) (p : Nat × Nat) :
    PayrollRow :=
  let s := monthStatOf st emp p.1 p.2
  { row with
    month_days := row.month_days ++ [(p, s.days)],
    total_days := row.total_days + s.days,
    total_advances := row.total_advances + s.advances,
    total_gross := row.total_gross + s.gross,
    total_remain := row.total_remain + s.remaining }

/-- The per-employee payroll row: accumulate over the months, then round
each running total to two decimals. -/
def payrollRow (st : State) (months : List (Nat × Nat)) (emp : Employee) : PayrollRow :=
  let row := months.foldl (payrollAccum st emp) ⟨emp.name, emp.daily_salary, 0, 0, 0, 0, []⟩
  { row with
    total_days := round2 row.total_days,
    total_advances := round2 row.total_advances,
    total_gross := round2 row.total_gross,
    total_remain := round2 row.total_remain }

/-- SQL `LIKE '%q%'`: substring match. -/
def likeFilter (q s : String) : Bool := decide (q.toList <:+: s.toList)

/-- The employees shown by the payroll view (tenant scoped, optional name
filter). -/
def payrollEmployees (st : State) (cid : Nat) (q : String) : List Employee :=
  let base := st.employees.filter (fun e => decide (e.company_id = cid))
  if q = "" then base else base.filter (fun e => likeFilter q e.name)

/-- The `payroll` view (report part).  It performs no mutation, so it
returns the state unchanged alongside the computed rows. -/
def payroll (st : State) (actor : User) (year month : Nat) (scope employee_q : String) :
    State × List PayrollRow :=
  let months := ordered_months st actor.company_id scope year month
  (st, (payrollEmployees st actor.company_id employee_q).map (payrollRow st months))

/-! ### Purge engine and bulk deletion -/

/-- Model of `purge_employees`: delete all attendance, advances and memberships of
the given employees, then the employee rows. -/
def purge_employees (st : State) (employee_ids : List Nat) : State :=
  if employee_ids = [] then st
  else
    { st with
      attendance := st.attendance.filter (fun r => decide (r.employee_id ∉ employee_ids)),
      advances := st.advances.filter (fun a => decide (a.employee_id ∉ employee_ids)),
      team_members := st.team_members.filter (fun p => decide (p.2 ∉ employee_ids)),
      employees := st.employees.filter (fun e => decide (e.id ∉ employee_ids)) }

/-- Model of `purge_company`: delete the company and everything under it. -/
def purge_company (st : State) (cid : Nat) : State :=
  let team_ids := (st.teams.filter (fun t => decide (t.company_id = cid))).map (fun t => t.id)
  let employee_ids := (st.employees.filter (fun e => decide (e.company_id = cid))).map (fun e => e.id)
  let st1 :=
    if team_ids = [] then st
    else { st with notes := st.notes.filter (fun n => decide (n.team_id ∉ team_ids)) }
  let st2 := if employee_ids = [] then st1 else purge_employees st1 employee_ids
  { st2 with
    audit := st2.audit.filter (fun l => decide (l.company_id ≠ cid)),
    attendance := st2.attendance.filter (fun r => decide (r.company_id ≠ cid)),
    advances := st2.advances.filter (fun a => decide (a.company_id ≠ cid)),
    teams := st2.teams.filter (fun t => decide (t.company_id ≠ cid)),
    users := st2.users.filter (fun u => decide (u.company_id ≠ cid)),
    companies := st2.companies.filter (fun c => decide (c.id ≠ cid)) }

/-- Model of `purge_user_data`: owner deletion escalates to company deletion;
otherwise delete everything the user created/authored, then the user row.
Note: teams managed by the user are left untouched here. -/
def purge_user_data (st : State) (user : User) : State :=
  if user.is_owner then purge_company st user.company_id
  else
    let employee_ids := (st.employees.filter (fun e => decide (e.created_by = user.id))).map (fun e => e.id)
    let st1 := if employee_ids = [] then st else purge_employees st employee_ids
    { st1 with
      attendance := st1.attendance.filter (fun r => decide (r.created_by ≠ user.id)),
      notes := st1.notes.filter (fun n => decide (n.created_by ≠ user.id)),
      advances := st1.advances.filter (fun a => decide (a.created_by ≠ user.id)),
      audit := st1.audit.filter (fun l => decide (l.operator_id ≠ user.id)),
      users := st1.users.filter (fun u => decide (u.id ≠ user.id)) }

/-- Model of the `team_employee_delete` route: remove the team membership; if the
employee then belongs to no team, delete the Employee row.  The dependent
`Attendance` rows are NOT removed on this path (unlike `purge_employees`). -/
def team_employee_delete (st : State) (actor : User) (team : Team) (emp : Employee) : State :=
  let st1 := { st with
    team_members := st.team_members.filter (fun p => decide (¬ (p.1 = team.id ∧ p.2 = emp.id))) }
  if (st1.team_members.filter (fun p => decide (p.2 = emp.id))) = [] then
    log_action { st1 with employees := st1.employees.filter (fun e => decide (e.id ≠ emp.id)) }
      actor.company_id actor.id ("delete_employee") ("删除员工：" ++ emp.name)
  else
    log_action st1 actor.company_id actor.id ("remove_employee_from_team")
      ("员工 " ++ emp.name ++ " 从团队 " ++ team.name ++ " 移除")

/-! ### Bulk attendance wipe (`employees` POST handler) -/

/-- Employees selected through teams: the join of the association table with
the tenant's teams, restricted to the submitted team ids. -/
def team_selected_ids (st : State) (cid : Nat) (team_ids : List Nat) : List Nat :=
  (st.team_members.filter (fun p =>
    decide (p.1 ∈ team_ids) && st.teams.any (fun t => decide (t.id = p.1 ∧ t.company_id = cid)))).map
    (fun p => p.2)

/-- Detail string of the `clear_attendance` audit row. -/
def clearDetail (nEmp nDel : Nat) : String :=
  "清空考勤：员工数 " ++ toString nEmp ++ "，删除记录 " ++ toString nDel ++ " 条"

/-- The `employees` POST handler: delete the tenant's attendance rows of the
selected employees, append one `clear_attendance` audit row.  An empty
selection is rejected with no change. -/
def clear_attendance (st : State) (actor : User) (team_ids employee_ids : List Nat) : State :=
  let selected := employee_ids ++ team_selected_ids st actor.company_id team_ids
  if selected = [] then st
  else
    let doomed := st.attendance.filter (fun r =>
      decide (r.company_id = actor.company_id ∧ r.employee_id ∈ selected))
    let st1 := { st with attendance := st.attendance.filter (fun r =>
      decide (¬ (r.company_id = actor.company_id ∧ r.employee_id ∈ selected))) }
    log_action st1 actor.company_id actor.id ("clear_attendance")
      (clearDetail selected.dedup.length doomed.length)

/-! ### Lemmas about attendance sums -/

lemma attSum_nil (p : Attendance → Bool) : attSum [] p = 0 := rfl

lemma attSum_cons (r : Attendance) (A : List Attendance) (p : Attendance → Bool) :
    attSum (r :: A) p = (if p r = true then r.day_count else 0) + attSum A p := by
  simp only [attSum, List.filter_cons]
  split <;> simp

lemma attSum_append (A B : List Attendance) (p : Attendance → Bool) :
    attSum (A ++ B) p = attSum A p + attSum B p := by
  simp [attSum, List.filter_append]

lemma attSum_eq_zero {A : List Attendance} {p : Attendance → Bool}
    (h : ∀ r ∈ A, p r = false) : attSum A p = 0 := by
  induction A with
  | nil => rfl
  | cons r A ih =>
    rw [attSum_cons, h r (by simp)]
    simp only [Bool.false_eq_true, if_false, zero_add]
    exact ih fun s hs => h s (by simp [hs])

/-- Split of the per-date sum into the other-team part and the same-key
part, for any team `t`. -/
lemma dateSum_split (A : List Attendance) (e : Nat) (d : Date) (t : Nat) :
    dateSum A e d = other_sum A e d t + attSum A (attKey e t d) := by
  induction A with
  | nil => simp [dateSum, other_sum, attSum]
  | cons r A ih =>
    simp only [dateSum, other_sum] at ih ⊢
    rw [attSum_cons, attSum_cons, attSum_cons, ih]
    by_cases he : r.employee_id = e
    · by_cases hd : r.work_date = d
      · by_cases ht : r.team_id = t
        · simp [onDate, otherTeams, attKey, he, hd, ht]; ring
        · simp [onDate, otherTeams, attKey, he, hd, ht]; ring
      · simp [onDate, otherTeams, attKey, he, hd]
    · simp [onDate, otherTeams, attKey, he]

/-! ### Lemmas about the in-place update -/

lemma updateAtt_of_not_found {A : List Attendance} {e t : Nat} {d : Date} (dc : ℚ) (uid : Nat)
    (h : A.any (attKey e t d) = false) : updateAtt e t d dc uid A = A := by
  induction A with
  | nil => rfl
  | cons r A ih =>
    simp only [List.any_cons, Bool.or_eq_false_iff] at h
    simp [updateAtt, h.1, ih h.2]

lemma updateAtt_length (A : List Attendance) (e t : Nat) (d : Date) (dc : ℚ) (uid : Nat) :
    (updateAtt e t d dc uid A).length = A.length := by
  induction A with
  | nil => rfl
  | cons r A ih =>
    simp only [updateAtt]
    split <;> simp [ih]

lemma updateAtt_any (A : List Attendance) (e t : Nat) (d : Date) (dc : ℚ) (uid : Nat) :
    (updateAtt e t d dc uid A).any (attKey e t d) = A.any (attKey e t d) := by
  induction A with
  | nil => rfl
  | cons r A ih =>
    simp only [updateAtt]
    by_cases h : attKey e t d r = true
    · have h2 : attKey e t d { r with day_count := dc, created_by := uid } = true := by
        simpa [attKey] using h
      simp [h, h2]
    · simp [h, List.any_cons, ih]

lemma updateAtt_mem {A : List Attendance} {e t : Nat} {d : Date} {dc : ℚ} {uid : Nat}
    {s : Attendance} (hs : s ∈ updateAtt e t d dc uid A) :
    ∃ s0 ∈ A, s.employee_id = s0.employee_id ∧ s.team_id = s0.team_id ∧
      s.work_date = s0.work_date := by
  induction A with
  | nil => simp [updateAtt] at hs
  | cons r A ih =>
    simp only [updateAtt] at hs
    by_cases h : attKey e t d r = true
    · rw [if_pos h] at hs
      rcases List.mem_cons.mp hs with h1 | h2
      · exact ⟨r, by simp, by simp [h1]⟩
      · exact ⟨s, by simp [h2], rfl, rfl, rfl⟩
    · rw [if_neg h] at hs
      rcases List.mem_cons.mp hs with h1 | h2
      · exact ⟨r, by simp, by simp [h1]⟩
      · rcases ih h2 with ⟨s0, hs0, hk⟩
        exact ⟨s0, by simp [hs0], hk⟩

lemma updateAtt_pairwise {A : List Attendance} {e t : Nat} {d : Date} {dc : ℚ} {uid : Nat}
    (hu : attKeyUnique A) : attKeyUnique (updateAtt e t d dc uid A) := by
  induction A with
  | nil => exact hu
  | cons r A ih =>
    rw [attKeyUnique, List.pairwise_cons] at hu
    simp only [updateAtt]
    split
    · rw [attKeyUnique, List.pairwise_cons]
      exact ⟨fun s hs => hu.1 s hs, hu.2⟩
    · rw [attKeyUnique, List.pairwise_cons]
      constructor
      · intro s hs
        rcases (updateAtt_mem hs) with ⟨s0, hs0, hkey⟩
        intro hcon
        exact hu.1 s0 hs0
          ⟨hcon.1.trans hkey.1, hcon.2.1.trans hkey.2.1, hcon.2.2.trans hkey.2.2⟩
      · exact ih hu.2

/-- Under the unique-key constraint, after an in-place update the same-key
sum is exactly the new value. -/
lemma attSum_key_updateAtt {A : List Attendance} {e t : Nat} {d : Date} {dc : ℚ} {uid : Nat}
    (hu : attKeyUnique A) (h : A.any (attKey e t d) = true) :
    attSum (updateAtt e t d dc uid A) (attKey e t d) = dc := by
  induction A with
  | nil => simp at h
  | cons r A ih =>
    rw [attKeyUnique, List.pairwise_cons] at hu
    simp only [updateAtt]
    by_cases hr : attKey e t d r = true
    · rw [if_pos hr, attSum_cons]
      have hr2 : attKey e t d { r with day_count := dc, created_by := uid } = true := by
        simpa [attKey] using hr
      rw [hr2, if_pos rfl]
      have hzero : attSum A (attKey e t d) = 0 := by
        apply attSum_eq_zero
        intro s hs
        simp only [attKey, decide_eq_true_eq] at hr
        by_contra hcon
        simp only [Bool.not_eq_false, attKey, decide_eq_true_eq] at hcon
        exact hu.1 s hs
          ⟨hr.1.trans hcon.1.symm, hr.2.1.trans hcon.2.1.symm, hr.2.2.trans hcon.2.2.symm⟩
      rw [hzero]; ring
    · have hr2 : attKey e t d r = false := by simpa using hr
      rw [if_neg hr, attSum_cons, hr2]
      simp only [Bool.false_eq_true, if_false, zero_add]
      simp only [List.any_cons, hr2, Bool.false_or] at h
      exact ih hu.2 h

/-- The in-place update does not change the employee's other-team sum. -/
lemma other_sum_updateAtt (A : List Attendance) (e t : Nat) (d : Date) (dc : ℚ) (uid : Nat) :
    other_sum (updateAtt e t d dc uid A) e d t = other_sum A e d t := by
  induction A with
  | nil => rfl
  | cons r A ih =>
    simp only [updateAtt]
    by_cases hr : attKey e t d r = true
    · rw [if_pos hr]
      simp only [attKey, decide_eq_true_eq] at hr
      simp only [other_sum] at ih ⊢
      rw [attSum_cons, attSum_cons]
      have h1 : otherTeams e d t { r with day_count := dc, created_by := uid } = false := by
        simp [otherTeams, hr.2.1]
      have h2 : otherTeams e d t r = false := by simp [otherTeams, hr.2.1]
      rw [h1, h2]
      simp
    · rw [if_neg hr]
      simp only [other_sum] at ih ⊢
      rw [attSum_cons, attSum_cons, ih]

/-- The in-place update at key `(e, t, d)` does not change any per-date sum
of a different `(employee, date)` pair. -/
lemma dateSum_updateAtt_ne {A : List Attendance} {e t : Nat} {d : Date} {dc : ℚ} {uid : Nat}
    {e2 : Nat} {d2 : Date} (hne : ¬ (e2 = e ∧ d2 = d)) :
    dateSum (updateAtt e t d dc uid A) e2 d2 = dateSum A e2 d2 := by
  induction A with
  | nil => rfl
  | cons r A ih =>
    simp only [updateAtt]
    by_cases hr : attKey e t d r = true
    · rw [if_pos hr]
      simp only [attKey, decide_eq_true_eq] at hr
      simp only [dateSum] at ih ⊢
      rw [attSum_cons, attSum_cons]
      have h1 : onDate e2 d2 { r with day_count := dc, created_by := uid } = false := by
        simp only [onDate, decide_eq_false_iff_not]
        intro hcon
        exact hne ⟨hcon.1.symm.trans hr.1, hcon.2.symm.trans hr.2.2⟩
      have h2 : onDate e2 d2 r = false := by
        simp only [onDate, decide_eq_false_iff_not]
        intro hcon
        exact hne ⟨hcon.1.symm.trans hr.1, hcon.2.symm.trans hr.2.2⟩
      rw [h1, h2]
      simp
    · rw [if_neg hr]
      simp only [dateSum] at ih ⊢
      rw [attSum_cons, attSum_cons, ih]

/-! ### Preservation of the invariants by one accepted or rejected entry -/

lemma recordOne_preserves {A : List Attendance} {cid uid t e : Nat} {d : Date} {dc : ℚ}
    (hu : attKeyUnique A) (hc : ceilingInv A) :
    attKeyUnique (recordOne cid uid t d A e dc).1 ∧ ceilingInv (recordOne cid uid t d A e dc).1 := by
  unfold recordOne
  by_cases hrej : 1 < other_sum A e d t + dc
  · rw [if_pos hrej]
    exact ⟨hu, hc⟩
  · rw [if_neg hrej]
    push_neg at hrej
    by_cases hfound : A.any (attKey e t d) = true
    · rw [if_pos hfound]
      refine ⟨updateAtt_pairwise hu, ?_⟩
      intro e2 d2
      by_cases hsame : e2 = e ∧ d2 = d
      · rw [hsame.1, hsame.2]
        rw [dateSum_split _ e d t, other_sum_updateAtt, attSum_key_updateAtt hu hfound]
        exact hrej
      · rw [dateSum_updateAtt_ne hsame]
        exact hc e2 d2
    · rw [if_neg hfound]
      simp only [Bool.not_eq_true] at hfound
      constructor
      · rw [attKeyUnique, List.pairwise_append]
        refine ⟨hu, List.pairwise_singleton _ _, ?_⟩
        intro r hr b hb
        simp only [List.mem_singleton] at hb
        subst hb
        intro hcon
        have hkey : attKey e t d r = true := by
          simp only [attKey, decide_eq_true_eq]
          exact ⟨hcon.1, hcon.2.1, hcon.2.2⟩
        rw [List.any_eq_false] at hfound
        exact hfound r hr hkey
      · intro e2 d2
        simp only [dateSum] at hc ⊢
        rw [attSum_append, attSum_cons, attSum_nil]
        by_cases hsame : e2 = e ∧ d2 = d
        · have hkz : attSum A (attKey e t d) = 0 := by
            apply attSum_eq_zero
            intro s hs
            rw [List.any_eq_false] at hfound
            simpa using hfound s hs
          have hd : dateSum A e d = other_sum A e d t := by
            rw [dateSum_split _ e d t, hkz, add_zero]
          rw [hsame.1, hsame.2]
          have hon : onDate e d (⟨cid, e, t, d, dc, uid⟩ : Attendance) = true := by
            simp [onDate]
          rw [hon, if_pos rfl]
          simp only [dateSum] at hd
          rw [hd]
          linarith
        · have hon : onDate e2 d2 (⟨cid, e, t, d, dc, uid⟩ : Attendance) = false := by
            simp only [onDate, decide_eq_false_iff_not]
            intro hcon
            exact hsame ⟨hcon.1.symm, hcon.2.symm⟩
          rw [hon]
          simp only [Bool.false_eq_true, if_false, add_zero]
          exact hc e2 d2

lemma entryStep_preserves {cid uid t : Nat} {d : Date} {b : BatchState} {emp : Employee}
    {dc : ℚ} (hu : attKeyUnique b.att) (hc : ceilingInv b.att) :
    attKeyUnique (entryStep cid uid t d b emp dc).att ∧
      ceilingInv (entryStep cid uid t d b emp dc).att := by
  unfold entryStep
  dsimp only
  split
  · exact recordOne_preserves hu hc
  · exact ⟨hu, hc⟩

lemma runBatch_fold_preserves (cid uid t : Nat) (d : Date) (form : List (Nat × ℚ)) :
    ∀ (members : List Employee) (b : BatchState),
      attKeyUnique b.att → ceilingInv b.att →
      attKeyUnique ((members.foldl (fun b emp =>
          match formGet form emp.id with
          | none => b
          | some dc => entryStep cid uid t d b emp dc) b)).att ∧
      ceilingInv ((members.foldl (fun b emp =>
          match formGet form emp.id with
          | none => b
          | some dc => entryStep cid uid t d b emp dc) b)).att := by
  intro members
  induction members with
  | nil => exact fun b hu hc => ⟨hu, hc⟩
  | cons emp rest ih =>
    intro b hu hc
    simp only [List.foldl_cons]
    cases hf : formGet form emp.id with
    | none => simpa [hf] using ih b hu hc
    | some dc =>
      have h := @entryStep_preserves cid uid t d b emp dc hu hc
      simpa [hf] using ih _ h.1 h.2

lemma runBatch_preserves {cid uid t : Nat} {d : Date} {form : List (Nat × ℚ)}
    {members : List Employee} {A : List Attendance}
    (hu : attKeyUnique A) (hc : ceilingInv A) :
    attKeyUnique (runBatch cid uid t d form members A).att ∧
      ceilingInv (runBatch cid uid t d form members A).att := by
  unfold runBatch
  exact runBatch_fold_preserves cid uid t d form members ⟨A, 0, []⟩ hu hc

lemma upsertNote_attendance (st : State) (cid t : Nat) (d : Date) (txt : String) (uid : Nat) :
    (upsertNote st cid t d txt uid).attendance = st.attendance := by
  unfold upsertNote
  split <;> rfl

/-- The attendance table produced by the POST handler. -/
lemma post_attendance (st : State) (actor : User) (team : Team) (wd today : Date)
    (form : List (Nat × ℚ)) (txt : String) :
    (team_attendance_post st actor team wd today form txt).attendance =
      if dateLtB today wd then st.attendance
      else (runBatch actor.company_id actor.id team.id wd form (teamMembersOf st team)
        st.attendance).att := by
  unfold team_attendance_post
  split
  · rfl
  · dsimp only
    split
    · simp [log_action, upsertNote_attendance]
    · simp [upsertNote_attendance]

lemma post_preserves {st : State} (actor : User) (team : Team) (wd today : Date)
    (form : List (Nat × ℚ)) (txt : String)
    (hu : attKeyUnique st.attendance) (hc : ceilingInv st.attendance) :
    attKeyUnique (team_attendance_post st actor team wd today form txt).attendance ∧
      ceilingInv (team_attendance_post st actor team wd today form txt).attendance := by
  rw [post_attendance]
  split
  · exact ⟨hu, hc⟩
  · exact runBatch_preserves hu hc

lemma applyBatches_preserves :
    ∀ (ops : List BatchCall) (st : State),
      attKeyUnique st.attendance → ceilingInv st.attendance →
      attKeyUnique (applyBatches st ops).attendance ∧
        ceilingInv (applyBatches st ops).attendance := by
  intro ops
  induction ops with
  | nil => exact fun st hu hc => ⟨hu, hc⟩
  | cons op rest ih =>
    intro st hu hc
    have h := post_preserves op.actor op.team op.work_date op.today op.form op.note_text hu hc
    simpa [applyBatches, List.foldl_cons] using ih _ h.1 h.2

/-- C1: for every employee and every calendar date, after any sequence of
attendance-recording requests whose submitted day counts lie in {0, ½, 1},
started from a state satisfying the natural-key constraint and the ceiling
invariant (e.g. the empty ledger), the sum of `day_count` over all
attendance rows of that employee on that date is at most 1: each entry
computes `other_sum` over the records of the employee on the date excluding
the same-key team and is rejected without change when
`other_sum + day_count > 1`. -/
theorem attendance_ceiling_invariant (st : State) (ops : List BatchCall)
    (_hdc : ∀ op ∈ ops, ∀ p ∈ op.form, p.2 = 0 ∨ p.2 = (1 : ℚ)/2 ∨ p.2 = 1)
    (hu : attKeyUnique st.attendance) (hc : ceilingInv st.attendance) :
    ceilingInv (applyBatches st ops).attendance :=
  (applyBatches_preserves ops st hu hc).2

/-- A concrete tenant used by the witnesses: one company, one owner, two
teams, one employee shared by both teams, empty ledgers. -/
def wState : State :=
  ⟨[⟨1, "acme"⟩], [⟨1, 1, "boss", true, true⟩],
    [⟨10, 1, "A", 1⟩, ⟨11, 1, "B", 1⟩],
    [⟨5, 1, "zhang", 200, 1⟩],
    [(10, 5), (11, 5)], [], [], [], []⟩

/-- The owner of `wState`. -/
def wActor : User := ⟨1, 1, "boss", true, true⟩

/-- Three requests: record half a day on team A, try a full day on team B
(rejected by the ceiling), then record half a day on team B. -/
def wOps : List BatchCall :=
  [⟨wActor, ⟨10, 1, "A", 1⟩, ⟨2024, 3, 1⟩, ⟨2024, 3, 2⟩, [(5, 1/2)], ""⟩,
   ⟨wActor, ⟨11, 1, "B", 1⟩, ⟨2024, 3, 1⟩, ⟨2024, 3, 2⟩, [(5, 1)], ""⟩,
   ⟨wActor, ⟨11, 1, "B", 1⟩, ⟨2024, 3, 1⟩, ⟨2024, 3, 2⟩, [(5, 1/2)], ""⟩]

/-- Witness for C1 at a concrete input. -/
theorem attendance_ceiling_invariant_witness :
    ceilingInv (applyBatches wState wOps).attendance :=
  attendance_ceiling_invariant wState wOps (by norm_num [wOps])
    (by simp [attKeyUnique, wState])
    (fun e d => by simp [dateSum, attSum, wState])

/-! ### Rejection is a per-entry no-op (C2) -/

lemma upsertNote_audit (st : State) (cid t : Nat) (d : Date) (txt : String) (uid : Nat) :
    (upsertNote st cid t d txt uid).audit = st.audit := by
  unfold upsertNote
  split <;> rfl

/-- The audit log produced by the POST handler. -/
lemma post_audit (st : State) (actor : User) (team : Team) (wd today : Date)
    (form : List (Nat × ℚ)) (txt : String) :
    (team_attendance_post st actor team wd today form txt).audit =
      if dateLtB today wd then st.audit
      else if (runBatch actor.company_id actor.id team.id wd form (teamMembersOf st team)
          st.attendance).updated ≠ 0 then
        st.audit ++ [⟨actor.company_id, actor.id, "batch_attendance",
          batchDetail team.name wd (runBatch actor.company_id actor.id team.id wd form
            (teamMembersOf st team) st.attendance).updated⟩]
      else st.audit := by
  unfold team_attendance_post
  split
  · rfl
  · dsimp only
    split
    · simp [log_action, upsertNote_audit]
    · simp [upsertNote_audit]

lemma runBatch_fold_rejected (cid uid t : Nat) (d : Date) (form : List (Nat × ℚ)) :
    ∀ (members : List Employee) (b : BatchState),
      (∀ emp ∈ members, ∀ dc, formGet form emp.id = some dc →
        1 < other_sum b.att emp.id d t + dc) →
      (members.foldl (fun b emp =>
          match formGet form emp.id with
          | none => b
          | some dc => entryStep cid uid t d b emp dc) b).att = b.att ∧
      (members.foldl (fun b emp =>
          match formGet form emp.id with
          | none => b
          | some dc => entryStep cid uid t d b emp dc) b).updated = b.updated := by
  intro members
  induction members with
  | nil => exact fun b _ => ⟨rfl, rfl⟩
  | cons emp rest ih =>
    intro b h
    simp only [List.foldl_cons]
    cases hf : formGet form emp.id with
    | none =>
      simpa [hf] using ih b (fun s hs dc hdc => h s (List.mem_cons_of_mem _ hs) dc hdc)
    | some dc =>
      have hrej := h emp (List.mem_cons_self _ _) dc hf
      have hstep : entryStep cid uid t d b emp dc =
          { b with errors := b.errors ++ [overLimitMsg emp.name (other_sum b.att emp.id d t)] } := by
        unfold entryStep recordOne
        dsimp only
        rw [if_pos hrej]
        simp
      simp only [hf]
      rw [hstep]
      exact ih _ (fun s hs dc2 hdc2 => h s (List.mem_cons_of_mem _ hs) dc2 hdc2)

lemma runBatch_all_rejected {cid uid t : Nat} {d : Date} {form : List (Nat × ℚ)}
    {members : List Employee} {A : List Attendance}
    (h : ∀ emp ∈ members, ∀ dc, formGet form emp.id = some dc →
      1 < other_sum A emp.id d t + dc) :
    (runBatch cid uid t d form members A).att = A ∧
      (runBatch cid uid t d form members A).updated = 0 := by
  unfold runBatch
  exact runBatch_fold_rejected cid uid t d form members ⟨A, 0, []⟩ h

/-- C2: an attendance write that would violate the ceiling is a no-op for
that entry: the entry is rejected, no attendance row is inserted or altered
for it, and when a whole request consists of such rejected entries, no audit
row is appended and the attendance ledger is unchanged. -/
theorem rejected_entry_noop :
    (∀ (cid uid t e : Nat) (d : Date) (A : List Attendance) (dc : ℚ),
      1 < other_sum A e d t + dc → recordOne cid uid t d A e dc = (A, false)) ∧
    (∀ (st : State) (actor : User) (team : Team) (wd today : Date)
      (form : List (Nat × ℚ)) (txt : String),
      (∀ emp ∈ teamMembersOf st team, ∀ dc, formGet form emp.id = some dc →
        1 < other_sum st.attendance emp.id wd team.id + dc) →
      (team_attendance_post st actor team wd today form txt).attendance = st.attendance ∧
      (team_attendance_post st actor team wd today form txt).audit = st.audit) := by
  constructor
  · intro cid uid t e d A dc h
    unfold recordOne
    dsimp only
    rw [if_pos h]
  · intro st actor team wd today form txt h
    have hb := @runBatch_all_rejected actor.company_id actor.id team.id wd form
      (teamMembersOf st team) st.attendance h
    rw [post_attendance, post_audit]
    constructor
    · split
      · rfl
      · exact hb.1
    · split
      · rfl
      · rw [if_neg (by simp [hb.2])]

/-- Existing ledger used by the C2 witness: employee 5 already has a full
day on team 10 on 2024-03-01. -/
def wAtt : List Attendance := [⟨1, 5, 10, ⟨2024, 3, 1⟩, 1, 1⟩]

/-- State `wState` with the `wAtt` ledger. -/
def wState2 : State :=
  ⟨[⟨1, "acme"⟩], [⟨1, 1, "boss", true, true⟩],
    [⟨10, 1, "A", 1⟩, ⟨11, 1, "B", 1⟩],
    [⟨5, 1, "zhang", 200, 1⟩],
    [(10, 5), (11, 5)], wAtt, [], [], []⟩

/-- Witness for C2 at a concrete input: recording another half day on team
11 is rejected and changes nothing. -/
theorem rejected_entry_noop_witness :
    recordOne 1 1 11 ⟨2024, 3, 1⟩ wAtt 5 (1/2) = (wAtt, false) ∧
    ((team_attendance_post wState2 wActor ⟨11, 1, "B", 1⟩ ⟨2024, 3, 1⟩ ⟨2024, 3, 2⟩
        [(5, 1/2)] "").attendance = wState2.attendance ∧
      (team_attendance_post wState2 wActor ⟨11, 1, "B", 1⟩ ⟨2024, 3, 1⟩ ⟨2024, 3, 2⟩
        [(5, 1/2)] "").audit = wState2.audit) := by
  constructor
  · exact rejected_entry_noop.1 1 1 11 5 ⟨2024, 3, 1⟩ wAtt (1/2)
      (by norm_num [other_sum, attSum, otherTeams, wAtt])
  · refine rejected_entry_noop.2 wState2 wActor ⟨11, 1, "B", 1⟩ ⟨2024, 3, 1⟩ ⟨2024, 3, 2⟩
      [(5, 1/2)] "" ?_
    intro emp hemp dc hdc
    simp only [teamMembersOf, wState2, wState] at hemp
    simp only [List.mem_filter] at hemp
    have h5 : emp = ⟨5, 1, "zhang", 200, 1⟩ := by
      simpa using hemp.1
    subst h5
    simp only [formGet] at hdc
    simp at hdc
    subst hdc
    norm_num [other_sum, attSum, otherTeams, wAtt, wState2]

/-! ### Idempotent upsert (C3) -/

lemma recordOne_keyUnique {A : List Attendance} {cid uid t e : Nat} {d : Date} {dc : ℚ}
    (hu : attKeyUnique A) : attKeyUnique (recordOne cid uid t d A e dc).1 := by
  unfold recordOne
  dsimp only
  split
  · exact hu
  · split
    · exact updateAtt_pairwise hu
    · rename_i hfound
      rw [attKeyUnique, List.pairwise_append]
      refine ⟨hu, List.pairwise_singleton _ _, ?_⟩
      intro r hr b hb
      simp only [List.mem_singleton] at hb
      subst hb
      intro hcon
      simp only [Bool.not_eq_true, List.any_eq_false] at hfound
      have hkey : attKey e t d r = true := by
        simp only [attKey, decide_eq_true_eq]
        exact ⟨hcon.1, hcon.2.1, hcon.2.2⟩
      rw [hfound r hr] at hkey
      cases hkey

/-- Under the unique-key constraint only the first (unique) matching row is
updated, so the rows at the key are mapped pointwise. -/
lemma updateAtt_filter {A : List Attendance} {e t : Nat} {d : Date} {dc : ℚ} {uid : Nat}
    (hu : attKeyUnique A) :
    (updateAtt e t d dc uid A).filter (attKey e t d) =
      (A.filter (attKey e t d)).map (fun r => { r with day_count := dc, created_by := uid }) := by
  induction A with
  | nil => rfl
  | cons r A ih =>
    rw [attKeyUnique, List.pairwise_cons] at hu
    simp only [updateAtt]
    by_cases hr : attKey e t d r = true
    · rw [if_pos hr]
      have hr2 : attKey e t d { r with day_count := dc, created_by := uid } = true := by
        simpa [attKey] using hr
      have hnil : A.filter (attKey e t d) = [] := by
        rw [List.filter_eq_nil_iff]
        intro s hs
        simp only [attKey, decide_eq_true_eq] at hr ⊢
        intro hcon
        exact hu.1 s hs
          ⟨hr.1.trans hcon.1.symm, hr.2.1.trans hcon.2.1.symm, hr.2.2.trans hcon.2.2.symm⟩
      rw [List.filter_cons, List.filter_cons, if_pos hr2, if_pos hr, hnil]
      simp
    · rw [if_neg hr]
      have hr2 : attKey e t d r = false := by simpa using hr
      rw [List.filter_cons, List.filter_cons, hr2]
      simp only [Bool.false_eq_true, if_false]
      exact ih hu.2

/-- Under the unique-key constraint a found key selects exactly one row. -/
lemma filter_key_singleton {A : List Attendance} {e t : Nat} {d : Date}
    (hu : attKeyUnique A) (h : A.any (attKey e t d) = true) :
    ∃ r0, A.filter (attKey e t d) = [r0] := by
  induction A with
  | nil => cases h
  | cons r A ih =>
    rw [attKeyUnique, List.pairwise_cons] at hu
    by_cases hr : attKey e t d r = true
    · refine ⟨r, ?_⟩
      rw [List.filter_cons, if_pos hr]
      have hnil : A.filter (attKey e t d) = [] := by
        rw [List.filter_eq_nil_iff]
        intro s hs hks
        simp only [attKey, decide_eq_true_eq] at hr hks
        exact hu.1 s hs
          ⟨hr.1.trans hks.1.symm, hr.2.1.trans hks.2.1.symm, hr.2.2.trans hks.2.2.symm⟩
      rw [hnil]
    · have hr2 : attKey e t d r = false := by simpa using hr
      rw [List.filter_cons, hr2]
      simp only [Bool.false_eq_true, if_false]
      rw [List.any_cons, hr2] at h
      simp only [Bool.false_or] at h
      exact ih hu.2 h

/-- C3: `recordAttendance` is an idempotent upsert at the natural key:
recording `(e, t, d, ½)` twice in sequence (both accepted, since the other
teams leave room for the half day) leaves exactly one attendance row at that
key, holding `day_count = ½` and the second caller's `created_by`, and the
second call inserts no additional row. -/
theorem attendance_upsert_idempotent (A : List Attendance) (cid uid1 uid2 t e : Nat) (d : Date)
    (hu : attKeyUnique A) (hos : other_sum A e d t + 1/2 ≤ 1) :
    (((recordOne cid uid2 t d (recordOne cid uid1 t d A e (1/2)).1 e (1/2)).1.filter
        (attKey e t d)).map (fun r => (r.day_count, r.created_by)) = [((1 : ℚ)/2, uid2)]) ∧
    (recordOne cid uid2 t d (recordOne cid uid1 t d A e (1/2)).1 e (1/2)).1.length =
      (recordOne cid uid1 t d A e (1/2)).1.length := by
  have hacc : ¬ (1 < other_sum A e d t + (1/2 : ℚ)) := not_lt.mpr hos
  by_cases hfound : A.any (attKey e t d) = true
  · have hA1 : (recordOne cid uid1 t d A e (1/2)).1 = updateAtt e t d (1/2) uid1 A := by
      unfold recordOne
      dsimp only
      rw [if_neg hacc, if_pos hfound]
    have hany1 : (updateAtt e t d (1/2) uid1 A).any (attKey e t d) = true := by
      rw [updateAtt_any]
      exact hfound
    have hos1 : other_sum (updateAtt e t d (1/2) uid1 A) e d t = other_sum A e d t :=
      other_sum_updateAtt A e t d (1/2) uid1
    have hu1 : attKeyUnique (updateAtt e t d (1/2) uid1 A) := updateAtt_pairwise hu
    have hA2 : (recordOne cid uid2 t d (updateAtt e t d (1/2) uid1 A) e (1/2)).1 =
        updateAtt e t d (1/2) uid2 (updateAtt e t d (1/2) uid1 A) := by
      unfold recordOne
      dsimp only
      rw [if_neg (by rw [hos1]; exact hacc), if_pos hany1]
    rw [hA1, hA2]
    constructor
    · rw [updateAtt_filter hu1, updateAtt_filter hu]
      obtain ⟨r0, hr0⟩ := filter_key_singleton hu hfound
      rw [hr0]
      simp
    · rw [updateAtt_length]
  · have hf : A.any (attKey e t d) = false := by simpa using hfound
    have hA1 : (recordOne cid uid1 t d A e (1/2)).1 = A ++ [⟨cid, e, t, d, 1/2, uid1⟩] := by
      unfold recordOne
      dsimp only
      rw [if_neg hacc, hf]
      simp
    have hu1 : attKeyUnique (A ++ [(⟨cid, e, t, d, 1/2, uid1⟩ : Attendance)]) := by
      have h := @recordOne_keyUnique A cid uid1 t e d (1/2) hu
      rw [hA1] at h
      exact h
    have hkeynew : attKey e t d (⟨cid, e, t, d, 1/2, uid1⟩ : Attendance) = true := by
      simp [attKey]
    have hany1 : (A ++ [(⟨cid, e, t, d, 1/2, uid1⟩ : Attendance)]).any (attKey e t d) = true := by
      rw [List.any_append]
      simp [attKey]
    have hos1 : other_sum (A ++ [(⟨cid, e, t, d, 1/2, uid1⟩ : Attendance)]) e d t = other_sum A e d t := by
      simp only [other_sum] at *
      rw [attSum_append, attSum_cons, attSum_nil]
      simp [otherTeams]
    have hA2 : (recordOne cid uid2 t d (A ++ [(⟨cid, e, t, d, 1/2, uid1⟩ : Attendance)]) e (1/2)).1 =
        updateAtt e t d (1/2) uid2 (A ++ [(⟨cid, e, t, d, 1/2, uid1⟩ : Attendance)]) := by
      unfold recordOne
      dsimp only
      rw [if_neg (by rw [hos1]; exact hacc), if_pos hany1]
    rw [hA1, hA2]
    constructor
    · rw [updateAtt_filter hu1]
      have hnilA : A.filter (attKey e t d) = [] := by
        rw [List.filter_eq_nil_iff]
        intro s hs hks
        rw [List.any_eq_false] at hf
        exact hf s hs hks
      rw [List.filter_append, hnilA, List.filter_cons, if_pos hkeynew]
      simp
    · rw [updateAtt_length]

/-- Witness for C3 at a concrete input: twice recording half a day on the
empty ledger leaves one row with `day_count = ½`. -/
theorem attendance_upsert_idempotent_witness :
    (((recordOne 1 9 10 ⟨2024, 3, 1⟩ (recordOne 1 8 10 ⟨2024, 3, 1⟩ [] 5 (1/2)).1 5 (1/2)).1.filter
        (attKey 5 10 ⟨2024, 3, 1⟩)).map (fun r => (r.day_count, r.created_by)) = [((1 : ℚ)/2, 9)]) ∧
    (recordOne 1 9 10 ⟨2024, 3, 1⟩ (recordOne 1 8 10 ⟨2024, 3, 1⟩ [] 5 (1/2)).1 5 (1/2)).1.length =
      (recordOne 1 8 10 ⟨2024, 3, 1⟩ [] 5 (1/2)).1.length :=
  attendance_upsert_idempotent [] 1 8 9 10 5 ⟨2024, 3, 1⟩ (by simp [attKeyUnique])
    (by norm_num [other_sum, attSum])

/-! ### Audit semantics of attendance mutation (C4) -/

/-- C4 counterexample: a request that inserts one brand-new attendance row
(an accepted mutation) appends an audit row tagged `batch_attendance`, not
`create_attendance` (nor `update_attendance`): the handler writes one audit
row per request, not one per accepted mutation with per-kind tags. -/
theorem per_mutation_audit_tag_counterexample :
    (team_attendance_post wState wActor ⟨10, 1, "A", 1⟩ ⟨2024, 3, 1⟩ ⟨2024, 3, 2⟩
      [(5, 1/2)] "").attendance.length = wState.attendance.length + 1 ∧
    (team_attendance_post wState wActor ⟨10, 1, "A", 1⟩ ⟨2024, 3, 1⟩ ⟨2024, 3, 2⟩
      [(5, 1/2)] "").audit.map (fun l => l.action) = ["batch_attendance"] ∧
    ("batch_attendance" ≠ "create_attendance" ∧ "batch_attendance" ≠ "update_attendance") := by
  refine ⟨?_, ?_, by decide, by decide⟩ <;>
  norm_num [team_attendance_post, wState, wActor, dateLtB, teamMembersOf, runBatch, formGet,
    entryStep, recordOne, other_sum, attSum, attKey, otherTeams, upsertNote, log_action,
    batchDetail, dateIso, pad2, pad4]

/-- C4 (amended): for every attendance request that is not date-rejected,
exactly one audit row tagged `batch_attendance` is appended when at least
one entry of the batch is accepted — regardless of whether the accepted
entries were inserts or updates — and no audit row is appended when no
entry is accepted. -/
theorem batch_audit_exactly_one (st : State) (actor : User) (team : Team) (wd today : Date)
    (form : List (Nat × ℚ)) (txt : String) (hd : dateLtB today wd = false) :
    ((runBatch actor.company_id actor.id team.id wd form (teamMembersOf st team)
        st.attendance).updated ≠ 0 →
      (team_attendance_post st actor team wd today form txt).audit =
        st.audit ++ [⟨actor.company_id, actor.id, "batch_attendance",
          batchDetail team.name wd (runBatch actor.company_id actor.id team.id wd form
            (teamMembersOf st team) st.attendance).updated⟩]) ∧
    ((runBatch actor.company_id actor.id team.id wd form (teamMembersOf st team)
        st.attendance).updated = 0 →
      (team_attendance_post st actor team wd today form txt).audit = st.audit) := by
  constructor
  · intro h
    rw [post_audit, hd]
    simp only [Bool.false_eq_true, if_false]
    rw [if_pos h]
  · intro h
    rw [post_audit, hd]
    simp only [Bool.false_eq_true, if_false]
    rw [if_neg (by simp [h])]

/-- Witness for C4 (amended) at a concrete input. -/
theorem batch_audit_exactly_one_witness :
    ((runBatch wActor.company_id wActor.id 10 ⟨2024, 3, 1⟩ [(5, 1/2)]
        (teamMembersOf wState ⟨10, 1, "A", 1⟩) wState.attendance).updated ≠ 0 →
      (team_attendance_post wState wActor ⟨10, 1, "A", 1⟩ ⟨2024, 3, 1⟩ ⟨2024, 3, 2⟩
        [(5, 1/2)] "").audit =
        wState.audit ++ [⟨wActor.company_id, wActor.id, "batch_attendance",
          batchDetail "A" ⟨2024, 3, 1⟩ (runBatch wActor.company_id wActor.id 10 ⟨2024, 3, 1⟩
            [(5, 1/2)] (teamMembersOf wState ⟨10, 1, "A", 1⟩) wState.attendance).updated⟩]) ∧
    ((runBatch wActor.company_id wActor.id 10 ⟨2024, 3, 1⟩ [(5, 1/2)]
        (teamMembersOf wState ⟨10, 1, "A", 1⟩) wState.attendance).updated = 0 →
      (team_attendance_post wState wActor ⟨10, 1, "A", 1⟩ ⟨2024, 3, 1⟩ ⟨2024, 3, 2⟩
        [(5, 1/2)] "").audit = wState.audit) :=
  batch_audit_exactly_one wState wActor ⟨10, 1, "A", 1⟩ ⟨2024, 3, 1⟩ ⟨2024, 3, 2⟩
    [(5, 1/2)] "" (by decide)

/-! ### Monthly statistics (C5) -/

/-- Tenant with one employee and a single advance of 0.004 yuan in March
2024 (the route accepts any float amount). -/
def cState : State :=
  ⟨[⟨1, "acme"⟩], [⟨1, 1, "boss", true, true⟩], [], [⟨7, 1, "li", 100, 1⟩], [], [],
    [], [⟨1, 7, 1/250, ⟨2024, 3, 5⟩, "", 1⟩], []⟩

/-- C5 counterexample: `calculate_month_stat` returns the advance total
rounded to two decimals, so with a sub-cent advance amount of 1/250 = 0.004
the returned `advanceTotal` is 0, not the sum of amounts (1/250). -/
theorem month_stat_advance_rounding_counterexample :
    calculate_month_stat cState 7 2024 3 = some ⟨0, 0, 0, 0⟩ ∧
    advMonthSum cState 7 2024 3 = 1/250 ∧ ((0 : ℚ) ≠ 1/250) := by
  refine ⟨?_, by norm_num [advMonthSum, cState], by norm_num⟩
  norm_num [calculate_month_stat, cState, monthStatOf, attMonthSum, advMonthSum, round2,
    round_eq]

lemma halves_sum {l : List ℚ} (h : ∀ x ∈ l, x = 0 ∨ x = 1/2 ∨ x = 1) :
    ∃ k : ℤ, l.sum = (k : ℚ)/2 := by
  induction l with
  | nil => exact ⟨0, by simp⟩
  | cons x l ih =>
    obtain ⟨k, hk⟩ := ih (fun y hy => h y (List.mem_cons_of_mem _ hy))
    rcases h x (List.mem_cons_self _ _) with hx | hx | hx
    · exact ⟨k, by simp [hx, hk]⟩
    · exact ⟨k + 1, by rw [List.sum_cons, hx, hk]; push_cast; ring⟩
    · exact ⟨k + 2, by rw [List.sum_cons, hx, hk]; push_cast; ring⟩

lemma round2_half (k : ℤ) : round2 ((k : ℚ)/2) = (k : ℚ)/2 := by
  unfold round2
  have h : ((k : ℚ)/2) * 100 = ((50 * k : ℤ) : ℚ) := by push_cast; ring
  rw [h, round_intCast]
  push_cast
  ring

/-- With the database check constraint `day_count IN (0, 0.5, 1)` in force,
the monthly attendance sum is a multiple of ½ and the 2-decimal rounding is
the identity on it. -/
lemma attMonthSum_round2 {st : State} {eid year month : Nat}
    (hhalf : ∀ r ∈ st.attendance, r.day_count = 0 ∨ r.day_count = 1/2 ∨ r.day_count = 1) :
    round2 (attMonthSum st eid year month) = attMonthSum st eid year month := by
  obtain ⟨k, hk⟩ := halves_sum (l := ((st.attendance.filter (fun r =>
      decide (r.employee_id = eid ∧ r.work_date.year = year ∧
        r.work_date.month = month))).map (fun r => r.day_count)))
    (by
      intro x hx
      simp only [List.mem_map, List.mem_filter] at hx
      obtain ⟨r, ⟨hr, _⟩, hxr⟩ := hx
      rw [← hxr]
      exact hhalf r hr)
  unfold attMonthSum
  rw [hk, round2_half]

/-- C5 (amended): `calculate_month_stat(e, y, m)` returns `workedDays`
equal to the exact sum of `day_count` over the employee's attendance rows of
that month across all teams (the 2-decimal rounding applied by the code is
the identity under the `day_count IN (0, 0.5, 1)` constraint);
`advanceTotal` equal to the month's advance-amount sum rounded to
2 decimals; `grossPay = round2(workedDays × dailyRate)`; and
`remaining = round2(grossPay − advanceSum)` computed from the unrounded
advance sum.  Every sum is 0 when no rows match (empty filters sum to 0). -/
theorem month_stat_spec (st : State) (eid year month : Nat) (emp : Employee)
    (hfind : st.employees.find? (fun e => decide (e.id = eid)) = some emp)
    (hhalf : ∀ r ∈ st.attendance, r.day_count = 0 ∨ r.day_count = 1/2 ∨ r.day_count = 1) :
    calculate_month_stat st eid year month =
      some ⟨attMonthSum st eid year month,
        round2 (advMonthSum st eid year month),
        round2 (attMonthSum st eid year month * emp.daily_salary),
        round2 (round2 (attMonthSum st eid year month * emp.daily_salary)
          - advMonthSum st eid year month)⟩ := by
  have hid : emp.id = eid := by
    have h := List.find?_some hfind
    simpa using h
  unfold calculate_month_stat
  rw [hfind]
  simp [monthStatOf, hid, attMonthSum_round2 hhalf]

/-- Worked March 2024 half a day, advanced 300: used by the C5 witness. -/
def cState2 : State :=
  ⟨[⟨1, "acme"⟩], [⟨1, 1, "boss", true, true⟩], [⟨10, 1, "A", 1⟩], [⟨7, 1, "li", 200, 1⟩],
    [(10, 7)], [⟨1, 7, 10, ⟨2024, 3, 4⟩, 1/2, 1⟩], [], [⟨1, 7, 300, ⟨2024, 3, 5⟩, "", 1⟩], []⟩

/-- Witness for C5 (amended) at a concrete input. -/
theorem month_stat_spec_witness :
    calculate_month_stat cState2 7 2024 3 =
      some ⟨attMonthSum cState2 7 2024 3,
        round2 (advMonthSum cState2 7 2024 3),
        round2 (attMonthSum cState2 7 2024 3 * (200 : ℚ)),
        round2 (round2 (attMonthSum cState2 7 2024 3 * (200 : ℚ))
          - advMonthSum cState2 7 2024 3)⟩ :=
  month_stat_spec cState2 7 2024 3 ⟨7, 1, "li", 200, 1⟩ (by norm_num [cState2])
    (by
      intro r hr
      simp only [cState2, List.mem_singleton] at hr
      subst hr
      norm_num)

/-! ### Period report (C6) -/

/-- A `(year, month)` pair with at least one attendance or advance row for
the tenant. -/
def hasPeriod (st : State) (cid : Nat) (p : Nat × Nat) : Prop :=
  (∃ r ∈ st.attendance, r.company_id = cid ∧ (r.work_date.year, r.work_date.month) = p) ∨
  (∃ a ∈ st.advances, a.company_id = cid ∧ (a.advance_date.year, a.advance_date.month) = p)

lemma mem_monthKeySrc {st : State} {cid : Nat} {p : Nat × Nat} :
    p ∈ monthKeySrc st cid ↔ hasPeriod st cid p := by
  simp only [monthKeySrc, hasPeriod, List.mem_append, List.mem_map, List.mem_filter,
    decide_eq_true_eq]
  constructor
  · rintro (⟨r, ⟨hr, hc⟩, hp⟩ | ⟨a, ⟨ha, hc⟩, hp⟩)
    · exact Or.inl ⟨r, hr, hc, hp⟩
    · exact Or.inr ⟨a, ha, hc, hp⟩
  · rintro (⟨r, hr, hc, hp⟩ | ⟨a, ha, hc, hp⟩)
    · exact Or.inl ⟨r, ⟨hr, hc⟩, hp⟩
    · exact Or.inr ⟨a, ⟨ha, hc⟩, hp⟩

lemma mem_insertPair {x y : Nat × Nat} {l : List (Nat × Nat)} :
    y ∈ insertPair x l ↔ y = x ∨ y ∈ l := by
  induction l with
  | nil => simp [insertPair]
  | cons z l ih =>
    simp only [insertPair]
    split
    · simp [List.mem_cons]
    · simp only [List.mem_cons, ih]
      tauto

lemma mem_sortPairs {y : Nat × Nat} {l : List (Nat × Nat)} : y ∈ sortPairs l ↔ y ∈ l := by
  induction l with
  | nil => simp [sortPairs]
  | cons x l ih => simp [sortPairs, mem_insertPair, ih]

lemma nodup_insertPair {x : Nat × Nat} {l : List (Nat × Nat)} (hx : x ∉ l) (h : l.Nodup) :
    (insertPair x l).Nodup := by
  induction l with
  | nil => simp [insertPair]
  | cons z l ih =>
    rw [List.nodup_cons] at h
    simp only [insertPair]
    split
    · rw [List.nodup_cons, List.nodup_cons]
      refine ⟨?_, h.1, h.2⟩
      simpa using hx
    · rw [List.nodup_cons]
      constructor
      · rw [mem_insertPair]
        rintro (hzx | hzl)
        · exact hx (by simp [hzx])
        · exact h.1 hzl
      · exact ih (fun hc => hx (by simp [hc])) h.2

lemma nodup_sortPairs {l : List (Nat × Nat)} (h : l.Nodup) : (sortPairs l).Nodup := by
  induction l with
  | nil => simp [sortPairs]
  | cons x l ih =>
    rw [List.nodup_cons] at h
    exact nodup_insertPair (fun hc => h.1 (mem_sortPairs.mp hc)) (ih h.2)

lemma payroll_fold_spec (st : State) (emp : Employee) :
    ∀ (months : List (Nat × Nat)) (row : PayrollRow),
      (months.foldl (payrollAccum st emp) row).month_days =
        row.month_days ++ months.map (fun p => (p, (monthStatOf st emp p.1 p.2).days)) ∧
      (months.foldl (payrollAccum st emp) row).total_days =
        row.total_days + (months.map (fun p => (monthStatOf st emp p.1 p.2).days)).sum ∧
      (months.foldl (payrollAccum st emp) row).total_advances =
        row.total_advances + (months.map (fun p => (monthStatOf st emp p.1 p.2).advances)).sum ∧
      (months.foldl (payrollAccum st emp) row).total_gross =
        row.total_gross + (months.map (fun p => (monthStatOf st emp p.1 p.2).gross)).sum ∧
      (months.foldl (payrollAccum st emp) row).total_remain =
        row.total_remain + (months.map (fun p => (monthStatOf st emp p.1 p.2).remaining)).sum := by
  intro months
  induction months with
  | nil => intro row; simp
  | cons p months ih =>
    intro row
    simp only [List.foldl_cons, List.map_cons, List.sum_cons, List.cons_append]
    obtain ⟨h1, h2, h3, h4, h5⟩ := ih (payrollAccum st emp row p)
    refine ⟨?_, ?_, ?_, ?_, ?_⟩
    · rw [h1]
      simp [payrollAccum]
    · rw [h2]
      simp only [payrollAccum]
      ring
    · rw [h3]
      simp only [payrollAccum]
      ring
    · rw [h4]
      simp only [payrollAccum]
      ring
    · rw [h5]
      simp only [payrollAccum]
      ring

lemma payrollRow_spec (st : State) (months : List (Nat × Nat)) (emp : Employee) :
    (payrollRow st months emp).month_days =
      months.map (fun p => (p, (monthStatOf st emp p.1 p.2).days)) ∧
    (payrollRow st months emp).total_days =
      round2 ((months.map (fun p => (monthStatOf st emp p.1 p.2).days)).sum) ∧
    (payrollRow st months emp).total_advances =
      round2 ((months.map (fun p => (monthStatOf st emp p.1 p.2).advances)).sum) ∧
    (payrollRow st months emp).total_gross =
      round2 ((months.map (fun p => (monthStatOf st emp p.1 p.2).gross)).sum) ∧
    (payrollRow st months emp).total_remain =
      round2 ((months.map (fun p => (monthStatOf st emp p.1 p.2).remaining)).sum) := by
  unfold payrollRow
  obtain ⟨h1, h2, h3, h4, h5⟩ :=
    payroll_fold_spec st emp months ⟨emp.name, emp.daily_salary, 0, 0, 0, 0, []⟩
  dsimp only
  exact ⟨by simpa using h1, by rw [h2]; norm_num, by rw [h3]; norm_num,
    by rw [h4]; norm_num, by rw [h5]; norm_num⟩

/-- C6: with scope `all`, the period report uses exactly the distinct set of
`(year, month)` pairs having at least one attendance or advance row for the
tenant, falling back to the single requested pair when none exist; each
employee row accumulates the per-period figures into `total_days`,
`total_advances`, `total_gross`, `total_remain`, each rounded to 2 decimals
after summation, with a per-period map keyed by `(year, month)`; and the
operation reads the ledgers without mutating the state. -/
theorem payroll_all_months_spec (st : State) (actor : User) (year month : Nat) (q : String) :
    (payroll st actor year month "all" q).1 = st ∧
    (payroll st actor year month "all" q).2 =
      (payrollEmployees st actor.company_id q).map
        (payrollRow st (ordered_months st actor.company_id "all" year month)) ∧
    (ordered_months st actor.company_id "all" year month).Nodup ∧
    ((∀ p, ¬ hasPeriod st actor.company_id p) →
      ordered_months st actor.company_id "all" year month = [(year, month)]) ∧
    ((∃ p0, hasPeriod st actor.company_id p0) →
      ∀ p, (p ∈ ordered_months st actor.company_id "all" year month ↔
        hasPeriod st actor.company_id p)) ∧
    (∀ (months : List (Nat × Nat)) (emp : Employee),
      (payrollRow st months emp).month_days =
        months.map (fun p => (p, (monthStatOf st emp p.1 p.2).days)) ∧
      (payrollRow st months emp).total_days =
        round2 ((months.map (fun p => (monthStatOf st emp p.1 p.2).days)).sum) ∧
      (payrollRow st months emp).total_advances =
        round2 ((months.map (fun p => (monthStatOf st emp p.1 p.2).advances)).sum) ∧
      (payrollRow st months emp).total_gross =
        round2 ((months.map (fun p => (monthStatOf st emp p.1 p.2).gross)).sum) ∧
      (payrollRow st months emp).total_remain =
        round2 ((months.map (fun p => (monthStatOf st emp p.1 p.2).remaining)).sum)) := by
  refine ⟨rfl, rfl, ?_, ?_, ?_, fun months emp => payrollRow_spec st months emp⟩
  · unfold ordered_months
    rw [if_pos rfl]
    dsimp only
    split
    · exact List.nodup_singleton _
    · exact nodup_sortPairs (List.nodup_dedup _)
  · intro hnone
    unfold ordered_months
    rw [if_pos rfl]
    have hsrc : monthKeySrc st actor.company_id = [] := by
      rw [List.eq_nil_iff_forall_not_mem]
      intro p hp
      exact hnone p (mem_monthKeySrc.mp hp)
    rw [hsrc]
    rfl
  · rintro ⟨p0, hp0⟩ p
    unfold ordered_months
    rw [if_pos rfl]
    have hne : (monthKeySrc st actor.company_id).dedup ≠ [] := by
      intro hc
      rw [List.dedup_eq_nil] at hc
      have hmem := mem_monthKeySrc.mpr hp0
      rw [hc] at hmem
      simp at hmem
    dsimp only
    rw [if_neg hne]
    rw [mem_sortPairs, List.mem_dedup, mem_monthKeySrc]

/-- Witness for C6 at a concrete input: on the empty ledger the report falls
back to the requested period and the state is untouched. -/
theorem payroll_all_months_spec_witness :
    (payroll State.empty wActor 2024 1 "all" "").1 = State.empty ∧
    ordered_months State.empty wActor.company_id "all" 2024 1 = [(2024, 1)] :=
  ⟨(payroll_all_months_spec State.empty wActor 2024 1 "").1,
   (payroll_all_months_spec State.empty wActor 2024 1 "").2.2.2.1 (by
     intro p hp
     simp [hasPeriod, State.empty] at hp)⟩

/-! ### Employee purge (C7) -/

/-- C7: after `purge_employees`, no attendance row, advance row or
team-membership pair references a purged employee, and the employee row
itself is gone. -/
theorem purge_employee_complete (st : State) (employee_ids : List Nat) (e : Nat)
    (he : e ∈ employee_ids) :
    (∀ r ∈ (purge_employees st employee_ids).attendance, r.employee_id ≠ e) ∧
    (∀ a ∈ (purge_employees st employee_ids).advances, a.employee_id ≠ e) ∧
    (∀ p ∈ (purge_employees st employee_ids).team_members, p.2 ≠ e) ∧
    (∀ emp ∈ (purge_employees st employee_ids).employees, emp.id ≠ e) := by
  have hne : employee_ids ≠ [] := by
    intro hc
    rw [hc] at he
    simp at he
  unfold purge_employees
  rw [if_neg hne]
  refine ⟨?_, ?_, ?_, ?_⟩ <;>
  · intro r hr
    simp only [List.mem_filter, decide_eq_true_eq] at hr
    intro hc
    exact hr.2 (by rw [hc]; exact he)

/-- Witness for C7 at a concrete input. -/
theorem purge_employee_complete_witness :
    (∀ r ∈ (purge_employees wState2 [5]).attendance, r.employee_id ≠ 5) ∧
    (∀ a ∈ (purge_employees wState2 [5]).advances, a.employee_id ≠ 5) ∧
    (∀ p ∈ (purge_employees wState2 [5]).team_members, p.2 ≠ 5) ∧
    (∀ emp ∈ (purge_employees wState2 [5]).employees, emp.id ≠ 5) :=
  purge_employee_complete wState2 [5] 5 (by decide)

/-! ### Principal purge (C8) -/

/-- Tenant with owner 1 and non-owner admin 2, where admin 2 manages
team 10. -/
def bState : State :=
  ⟨[⟨1, "acme"⟩], [⟨1, 1, "boss", true, true⟩, ⟨2, 1, "adm", false, true⟩],
    [⟨10, 1, "A", 2⟩], [], [], [], [], [], []⟩

/-- C8: `purge_user_data` on a non-owner principal deletes the Principal
row but does not reassign the Teams they manage: after purging admin 2,
team 10 still carries `manager_id = 2` although no user with id 2 exists —
the declared foreign key `team.manager_id → user.id` is left dangling
instead of being repointed to the acting owner. -/
theorem purge_principal_dangling_manager :
    ((purge_user_data bState ⟨2, 1, "adm", false, true⟩).teams.map
      (fun t => t.manager_id) = [2]) ∧
    ((purge_user_data bState ⟨2, 1, "adm", false, true⟩).users.map
      (fun u => u.id) = [1]) := by
  constructor <;> decide

/-! ### Sole-membership deletion (C9) -/

/-- Employee 5 belongs only to team 10 and has one attendance row. -/
def dState : State :=
  ⟨[⟨1, "acme"⟩], [⟨1, 1, "boss", true, true⟩], [⟨10, 1, "A", 1⟩], [⟨5, 1, "zhang", 200, 1⟩],
    [(10, 5)], [⟨1, 5, 10, ⟨2024, 3, 1⟩, 1, 1⟩], [], [], []⟩

/-- C9: removing employee 5's sole team membership deletes the Employee row
(so a subsequent lookup finds nothing), but the dependent attendance row is
left in place, still referencing employee 5 — the route deletes the
employee without purging its attendance, unlike `purge_employees`. -/
theorem sole_membership_delete_dangling_attendance :
    ((team_employee_delete dState wActor ⟨10, 1, "A", 1⟩ ⟨5, 1, "zhang", 200, 1⟩).employees
      = []) ∧
    ((team_employee_delete dState wActor ⟨10, 1, "A", 1⟩ ⟨5, 1, "zhang", 200, 1⟩).attendance.map
      (fun r => r.employee_id) = [5]) := by
  constructor <;> decide

/-! ### Bulk attendance wipe (C10) -/

/-- C10: `clear_attendance` deletes exactly the caller-tenant attendance
rows of the selected employees (selection = submitted employees plus the
members of the submitted tenant teams): advances, notes, employees, teams,
memberships, users, companies and pre-existing audit rows are unchanged,
exactly one `clear_attendance` audit row is appended, and every attendance
row of another tenant or another employee survives. -/
theorem clear_attendance_frame (st : State) (actor : User) (team_ids employee_ids : List Nat)
    (hsel : employee_ids ++ team_selected_ids st actor.company_id team_ids ≠ []) :
    (clear_attendance st actor team_ids employee_ids).companies = st.companies ∧
    (clear_attendance st actor team_ids employee_ids).users = st.users ∧
    (clear_attendance st actor team_ids employee_ids).teams = st.teams ∧
    (clear_attendance st actor team_ids employee_ids).employees = st.employees ∧
    (clear_attendance st actor team_ids employee_ids).team_members = st.team_members ∧
    (clear_attendance st actor team_ids employee_ids).notes = st.notes ∧
    (clear_attendance st actor team_ids employee_ids).advances = st.advances ∧
    (clear_attendance st actor team_ids employee_ids).audit = st.audit ++
      [⟨actor.company_id, actor.id, "clear_attendance",
        clearDetail (employee_ids ++ team_selected_ids st actor.company_id team_ids).dedup.length
          (st.attendance.filter (fun r => decide (r.company_id = actor.company_id ∧
            r.employee_id ∈ employee_ids ++
              team_selected_ids st actor.company_id team_ids))).length⟩] ∧
    (clear_attendance st actor team_ids employee_ids).attendance =
      st.attendance.filter (fun r => decide (¬ (r.company_id = actor.company_id ∧
        r.employee_id ∈ employee_ids ++ team_selected_ids st actor.company_id team_ids))) ∧
    (∀ r ∈ st.attendance, (r.company_id ≠ actor.company_id ∨
        r.employee_id ∉ employee_ids ++ team_selected_ids st actor.company_id team_ids) →
      r ∈ (clear_attendance st actor team_ids employee_ids).attendance) := by
  unfold clear_attendance
  dsimp only
  rw [if_neg hsel]
  refine ⟨rfl, rfl, rfl, rfl, rfl, rfl, rfl, rfl, rfl, ?_⟩
  intro r hr hcond
  simp only [log_action]
  rw [List.mem_filter]
  refine ⟨hr, ?_⟩
  simp only [decide_eq_true_eq]
  intro hc
  rcases hcond with h | h
  · exact h hc.1
  · exact h hc.2

/-- Witness for C10 at a concrete input. -/
theorem clear_attendance_frame_witness :
    (clear_attendance dState wActor [] [5]).companies = dState.companies ∧
    (clear_attendance dState wActor [] [5]).users = dState.users ∧
    (clear_attendance dState wActor [] [5]).teams = dState.teams ∧
    (clear_attendance dState wActor [] [5]).employees = dState.employees ∧
    (clear_attendance dState wActor [] [5]).team_members = dState.team_members ∧
    (clear_attendance dState wActor [] [5]).notes = dState.notes ∧
    (clear_attendance dState wActor [] [5]).advances = dState.advances ∧
    (clear_attendance dState wActor [] [5]).audit = dState.audit ++
      [⟨wActor.company_id, wActor.id, "clear_attendance",
        clearDetail ([5] ++ team_selected_ids dState wActor.company_id []).dedup.length
          (dState.attendance.filter (fun r => decide (r.company_id = wActor.company_id ∧
            r.employee_id ∈ [5] ++ team_selected_ids dState wActor.company_id []))).length⟩] ∧
    (clear_attendance dState wActor [] [5]).attendance =
      dState.attendance.filter (fun r => decide (¬ (r.company_id = wActor.company_id ∧
        r.employee_id ∈ [5] ++ team_selected_ids dState wActor.company_id []))) ∧
    (∀ r ∈ dState.attendance, (r.company_id ≠ wActor.company_id ∨
        r.employee_id ∉ [5] ++ team_selected_ids dState wActor.company_id []) →
      r ∈ (clear_attendance dState wActor [] [5]).attendance) :=
  clear_attendance_frame dState wActor [] [5] (by decide)

end App
